import Mathlib

/-!
Verification of the retrieval core of the rag-chatbot backend
(app/chunking.py, app/embeddings.py, and the metrics logic of app/routes.py),
as a shallow embedding in Lean.

Python lists become Lean lists, Python dicts of strings become association
lists, float scores become rationals (the code's float arithmetic is modelled
by exact rational arithmetic; the standard deviation, the only irrational
quantity, is expressed through Real.sqrt of the rational variance).
The external collaborators (the sentence-transformers encoder and the faiss
routines) are treated as injected capabilities exactly as the spec prescribes:
the encoder is a parameter encodeOne, faiss.normalize_L2 is a parameter
normL2, and the faiss-index bookkeeping that the Python code observes
(dimension check on add, append order, search output shape) is modelled
concretely.
-/

namespace RagChatbot

/-! ## Python primitives -/

/-- The characters Python str.split() and str.strip() treat as whitespace. -/
def pyIsSpace (ch : Char) : Bool :=
  ch = ' ' ∨ ch = '\t' ∨ ch = '\n' ∨ ch = '\r' ∨ ch = '\x0b' ∨ ch = '\x0c'

/-- Worker for pySplitWs: walk the characters, collecting the current word
in acc (reversed) and emitting it at each whitespace run. -/
def splitWsAux : List Char → List Char → List String
  | [], acc => if acc = [] then [] else [⟨acc.reverse⟩]
  | chr :: rest, acc =>
    if pyIsSpace chr then
      (if acc = [] then splitWsAux rest []
       else (⟨acc.reverse⟩ : String) :: splitWsAux rest [])
    else splitWsAux rest (chr :: acc)

/-- Python str.split() with no argument: split on whitespace runs,
dropping empty pieces. -/
def pySplitWs (s : String) : List String := splitWsAux s.data []

/-- Python ' '.join(ws). -/
def pyJoin : List String → String
  | [] => ""
  | [w] => w
  | w :: rest => w ++ " " ++ pyJoin rest

/-- Python str.strip() with no argument: remove leading and trailing
whitespace. -/
def pyStrip (s : String) : String :=
  ⟨((s.data.dropWhile pyIsSpace).reverse.dropWhile pyIsSpace).reverse⟩

/-- Python range(0, stop, step) for step at least 1: the starts
0, step, 2*step, ... that are strictly below stop. -/
def pyRangeStarts (stop step : Nat) : List Nat :=
  (List.range ((stop + step - 1) / step)).map (fun i => i * step)

/-- Python list indexing l[i], with negative indices counting from the end;
none models an IndexError. -/
def pyGetItem (l : List α) (i : Int) : Option α :=
  if 0 ≤ i then l[i.toNat]?
  else if (-i) ≤ (l.length : Int) then l[l.length - (-i).toNat]? else none

/-! ## DocumentChunker (app/chunking.py)

The constructor (lines 31-35) stores the two sizes and performs no
validation at all; any pair of values is accepted. -/

structure DocumentChunker where
  target_chunk_size : Nat
  overlap_size : Nat
deriving DecidableEq, Repr

/-- The one error split_into_chunks can raise: Python range() with a zero
step raises ValueError (this happens exactly when target = overlap). -/
inductive ChunkErr where
  | rangeStepZero
deriving DecidableEq, Repr

instance instDecEqExcept {ε α : Type} [DecidableEq ε] [DecidableEq α] :
    DecidableEq (Except ε α) := fun x y =>
  match x, y with
  | .error e, .error f =>
    if h : e = f then isTrue (by rw [h])
    else isFalse (fun hc => h (by cases hc; rfl))
  | .error _, .ok _ => isFalse (fun hc => Except.noConfusion hc)
  | .ok _, .error _ => isFalse (fun hc => Except.noConfusion hc)
  | .ok a, .ok b =>
    if h : a = b then isTrue (by rw [h])
    else isFalse (fun hc => h (by cases hc; rfl))

/-- DocumentChunker.split_into_chunks (chunking.py lines 37-69).
words = text.split(); empty -> []; step = target - overlap;
for start in range(0, len(words), step): emit ' '.join(words[start:start+target]).strip()
if the window is non-empty.  With step below zero the Python range is empty
(no windows, silently); with step zero range() raises ValueError. -/
def split_into_chunks (c : DocumentChunker) (document_text : String) :
    Except ChunkErr (List String) :=
  let words := pySplitWs document_text
  if words = [] then .ok []
  else
    let step_size : Int := (c.target_chunk_size : Int) - (c.overlap_size : Int)
    if step_size = 0 then .error .rangeStepZero
    else if step_size < 0 then .ok []
    else
      .ok ((pyRangeStarts words.length step_size.toNat).filterMap (fun start_idx =>
        let chunk_words := (words.drop start_idx).take c.target_chunk_size
        if chunk_words = [] then none
        else some (pyStrip (pyJoin chunk_words))))

/-- The word windows of split_into_chunks in recursive form: window at the
head of the remaining words, then recurse after dropping step many words.
Provably equal to the range-driven loop of the source (windows_eq_winds). -/
def winds (T s : Nat) (words : List String) : List (List String) :=
  if h : words = [] ∨ s = 0 then [] else words.take T :: winds T s (words.drop s)
termination_by words.length
decreasing_by
  simp only [not_or] at h
  simp only [List.length_drop]
  exact Nat.sub_lt (List.length_pos.mpr h.1) (Nat.pos_of_ne_zero h.2)

theorem winds_nil (T s : Nat) : winds T s [] = [] := by
  rw [winds]; simp

theorem winds_zero_step (T : Nat) (words : List String) : winds T 0 words = [] := by
  rw [winds]; simp

theorem winds_cons (T s : Nat) (words : List String) (hw : words ≠ []) (hs : s ≠ 0) :
    winds T s words = words.take T :: winds T s (words.drop s) := by
  rw [winds]; simp [hw, hs]

/-- The recursive windows agree with the range-driven loop of the source:
the starts are 0, s, 2s, ... strictly below the word count. -/
theorem winds_eq_map_range (T s : Nat) (hs : 0 < s) (words : List String) :
    winds T s words =
      (pyRangeStarts words.length s).map (fun a => (words.drop a).take T) := by
  induction words using winds.induct T s with
  | case1 words hstop =>
    rcases hstop with h | h
    · subst h
      have hz : (s - 1) / s = 0 := Nat.div_eq_of_lt (by omega)
      simp [winds_nil, pyRangeStarts, hz]
    · omega
  | case2 words hnot ih =>
    simp only [not_or] at hnot
    obtain ⟨hw, -⟩ := hnot
    rw [winds_cons T s words hw (by omega)]
    have hlen : 0 < words.length := List.length_pos.mpr hw
    by_cases hns : words.length ≤ s
    · -- a single window: drop s is empty, and the start list is just [0]
      have hdrop : words.drop s = [] := List.drop_eq_nil_of_le hns
      have hcount : (words.length + s - 1) / s = 1 := by
        have h1 : 1 * s ≤ words.length + s - 1 := by omega
        have h2 : words.length + s - 1 < (1 + 1) * s := by omega
        exact Nat.div_eq_of_lt_le h1 h2
      rw [hdrop, winds_nil]
      simp [pyRangeStarts, hcount, List.range_succ]
    · -- at least two windows
      push_neg at hns
      rw [ih]
      have hlen' : (words.drop s).length = words.length - s := List.length_drop s words
      have hcount : (words.length + s - 1) / s = ((words.length - s) + s - 1) / s + 1 := by
        have heq : words.length + s - 1 = ((words.length - s) + s - 1) + s := by omega
        rw [heq, Nat.add_div_right _ hs]
      simp only [pyRangeStarts, hlen', hcount, List.range_succ_eq_map]
      simp only [List.map_cons, List.map_map]
      congr 1
      · simp
      · apply List.map_congr_left
        intro i _
        simp only [Function.comp_apply, List.drop_drop]
        have hix : s + i * s = i.succ * s := by
          rw [Nat.succ_eq_add_one]; ring
        rw [hix]

/-- Content of the i-th window: it covers the words from i*s up to i*s + T. -/
theorem winds_getElem? (T s : Nat) (hs : 0 < s) (words : List String) (i : Nat) :
    (winds T s words)[i]? =
      if i * s < words.length then some ((words.drop (i * s)).take T) else none := by
  induction words using winds.induct T s generalizing i with
  | case1 words hstop =>
    rcases hstop with h | h
    · subst h; simp [winds_nil]
    · omega
  | case2 words hnot ih =>
    simp only [not_or] at hnot
    obtain ⟨hw, -⟩ := hnot
    rw [winds_cons T s words hw (by omega)]
    match i with
    | 0 =>
      have hpos : 0 < words.length := List.length_pos.mpr hw
      simp [hpos]
    | i + 1 =>
      rw [List.getElem?_cons_succ, ih]
      have hmul : (i + 1) * s = i * s + s := by ring
      have hlen' : (words.drop s).length = words.length - s := List.length_drop s words
      rw [hlen', hmul]
      by_cases hlt : i * s + s < words.length
      · rw [if_pos (by omega), if_pos hlt, List.drop_drop]
        rw [Nat.add_comm (i * s) s]
      · rw [if_neg (by omega), if_neg hlt]

/-- No window is empty (the loop guard of lines 65-67 never fires when the
target size is positive). -/
theorem winds_ne_nil (T s : Nat) (hT : 0 < T) (words : List String) :
    ∀ g ∈ winds T s words, g ≠ [] := by
  induction words using winds.induct T s with
  | case1 words hstop => rw [winds]; simp [hstop]
  | case2 words hnot ih =>
    simp only [not_or] at hnot
    obtain ⟨hw, hs⟩ := hnot
    rw [winds_cons T s words hw hs]
    intro g hg
    rcases List.mem_cons.mp hg with h | h
    · subst h
      have : 0 < (words.take T).length := by
        rw [List.length_take]
        exact lt_min hT (List.length_pos.mpr hw)
      exact List.length_pos.mp this
    · exact ih g h

/-- Dropping the first O words of every window and flattening recovers the
original words from position O on (T = s + O). -/
theorem winds_map_drop_flatten (T s O : Nat) (hs : 0 < s) (hTs : T = s + O)
    (words : List String) :
    ((winds T s words).map (List.drop O)).flatten = words.drop O := by
  induction words using winds.induct T s with
  | case1 words hstop =>
    rcases hstop with h | h
    · subst h; simp [winds_nil]
    · omega
  | case2 words hnot ih =>
    simp only [not_or] at hnot
    obtain ⟨hw, hs'⟩ := hnot
    rw [winds_cons T s words hw hs']
    simp only [List.map_cons, List.flatten_cons, ih]
    rw [List.drop_take, List.drop_drop, hTs]
    have h1 : s + O - O = s := by omega
    rw [h1, show s + O = O + s by omega, ← List.drop_drop, List.take_append_drop]

/-- The chunks of split_into_chunks, with the first window kept whole and
every later window stripped of its first O (overlap) words, concatenate back
to the original word sequence. -/
def reconFixed (O : Nat) : List (List String) → List String
  | [] => []
  | c :: rest => c ++ (rest.map (List.drop O)).flatten

theorem reconFixed_winds (T s O : Nat) (hs : 0 < s) (hTs : T = s + O)
    (words : List String) (hw : words ≠ []) :
    reconFixed O (winds T s words) = words := by
  rw [winds_cons T s words hw (by omega)]
  show words.take T ++ ((winds T s (words.drop s)).map (List.drop O)).flatten = words
  rw [winds_map_drop_flatten T s O hs hTs, List.drop_drop,
    show s + O = T by omega, List.take_append_drop]

/-- Two consecutive windows (starts a and a + s) share exactly
min O (length of the later window) words: the later window's prefix of that
size equals the earlier window's suffix of that size. -/
theorem take_drop_overlap (words : List String) (T s O a : Nat) (hTs : T = s + O)
    (hlt : a + s < words.length) :
    ((words.drop (a + s)).take T).take (min O ((words.drop (a + s)).take T).length) =
      ((words.drop a).take T).drop
        (((words.drop a).take T).length - min O ((words.drop (a + s)).take T).length) := by
  have hO : O ≤ T := by omega
  have hc2 : ((words.drop (a + s)).take T).length = min T (words.length - (a + s)) := by
    rw [List.length_take, List.length_drop]
  have hc1 : ((words.drop a).take T).length = min T (words.length - a) := by
    rw [List.length_take, List.length_drop]
  by_cases hcase : a + T ≤ words.length
  · have hm : min O ((words.drop (a + s)).take T).length = O := by rw [hc2]; omega
    rw [hm, List.take_take, min_eq_left hO, hc1,
      show min T (words.length - a) - O = s by omega,
      List.drop_take, List.drop_drop, show T - s = O by omega]
  · push_neg at hcase
    have hm : min O ((words.drop (a + s)).take T).length = words.length - (a + s) := by
      rw [hc2]; omega
    rw [hm, hc1, show min T (words.length - a) - (words.length - (a + s)) = s by omega,
      List.drop_take, List.drop_drop, show T - s = O by omega,
      List.take_take, List.take_of_length_le (by rw [List.length_drop]; omega),
      List.take_of_length_le (by rw [List.length_drop]; omega)]

/-- Helper: a filterMap whose function never yields none is a map. -/
theorem filterMap_eq_map_of_some {α β : Type} (f : α → Option β) (g : α → β)
    (l : List α) (h : ∀ a ∈ l, f a = some (g a)) : l.filterMap f = l.map g := by
  induction l with
  | nil => rfl
  | cons x xs ih =>
    rw [List.filterMap_cons, h x (List.mem_cons_self x xs), List.map_cons,
      ih (fun a ha => h a (List.mem_cons_of_mem x ha))]

/-- Every start produced by the range loop is strictly below the word count. -/
theorem pyRangeStarts_lt (n s : Nat) (hs : 0 < s) : ∀ a ∈ pyRangeStarts n s, a < n := by
  intro a ha
  simp only [pyRangeStarts, List.mem_map, List.mem_range] at ha
  obtain ⟨i, hi, rfl⟩ := ha
  by_cases hn : n = 0
  · subst hn
    have : (0 + s - 1) / s = 0 := Nat.div_eq_of_lt (by omega)
    omega
  · have h1 : (i + 1) * s ≤ ((n + s - 1) / s) * s := Nat.mul_le_mul_right s hi
    have h2 : ((n + s - 1) / s) * s ≤ n + s - 1 := Nat.div_mul_le_self _ s
    have h3 : i * s + s ≤ n + s - 1 := by
      calc i * s + s = (i + 1) * s := by ring
      _ ≤ n + s - 1 := le_trans h1 h2
    omega

/-- The range-loop body of split_into_chunks never hits the empty-window
guard when the target size is positive, so the split is exactly the joined,
trimmed windows. -/
theorem split_into_chunks_eq_winds (c : DocumentChunker) (text : String)
    (hO : c.overlap_size < c.target_chunk_size) :
    split_into_chunks c text =
      .ok ((winds c.target_chunk_size (c.target_chunk_size - c.overlap_size)
            (pySplitWs text)).map (fun g => pyStrip (pyJoin g))) := by
  unfold split_into_chunks
  by_cases hw : pySplitWs text = []
  · rw [if_pos hw, hw, winds_nil]; rfl
  · rw [if_neg hw]
    simp only []
    have hne0 : ¬((c.target_chunk_size : Int) - (c.overlap_size : Int) = 0) := by omega
    have hnneg : ¬((c.target_chunk_size : Int) - (c.overlap_size : Int) < 0) := by omega
    rw [if_neg hne0, if_neg hnneg]
    have htoNat : ((c.target_chunk_size : Int) - (c.overlap_size : Int)).toNat =
        c.target_chunk_size - c.overlap_size := by omega
    rw [htoNat]
    congr 1
    rw [winds_eq_map_range _ _ (by omega), List.map_map]
    apply filterMap_eq_map_of_some
    intro a ha
    have halt : a < (pySplitWs text).length :=
      pyRangeStarts_lt _ _ (by omega) a ha
    have hne : ((pySplitWs text).drop a).take c.target_chunk_size ≠ [] := by
      have : 0 < (((pySplitWs text).drop a).take c.target_chunk_size).length := by
        rw [List.length_take, List.length_drop]
        omega
      exact List.length_pos.mp this
    simp only [Function.comp_apply, if_neg hne]

/-- Claim C2: the claim says a degenerate configuration (overlap at least
target, step below 1) must fail with a configuration error at configuration
time and never silently produce empty windowing.  The code has no such
guard: the constructor (chunking.py lines 31-35) stores any values, with
overlap 600 > target 500 splitting silently returns the empty chunk list
(Python range with a negative step is empty), and with overlap = target =
500 splitting raises an untyped ValueError from range(step=0) at split
time, not a configuration error at construction. -/
theorem c2_degenerate_config_not_rejected :
    split_into_chunks ⟨500, 600⟩ "a b c" = .ok [] ∧
    split_into_chunks ⟨500, 500⟩ "a b c" = .error .rangeStepZero :=
  ⟨rfl, rfl⟩

/-- Claim C5: for every text whose word sequence is non-empty and every
configuration with overlap O < target T (step s = T - O), split_into_chunks
returns exactly the windows of winds T s, each window joined with single
spaces and stripped; window i covers the words from i*s up to i*s + T; no
window is empty; the windows reconstruct the original word order once each
later window's O-word overlap prefix is removed; consecutive windows share
exactly min O (available) words; and a 600-word input with T = 500, O = 50
yields exactly the two windows words[0:500] and words[450:600]. -/
theorem c5_splitFixed_windows (c : DocumentChunker) (text : String)
    (hO : c.overlap_size < c.target_chunk_size)
    (hw : pySplitWs text ≠ []) :
    split_into_chunks c text =
      .ok ((winds c.target_chunk_size (c.target_chunk_size - c.overlap_size)
        (pySplitWs text)).map (fun g => pyStrip (pyJoin g))) ∧
    (∀ i g, (winds c.target_chunk_size (c.target_chunk_size - c.overlap_size)
        (pySplitWs text))[i]? = some g →
      g = ((pySplitWs text).drop (i * (c.target_chunk_size - c.overlap_size))).take
            c.target_chunk_size) ∧
    (∀ g ∈ winds c.target_chunk_size (c.target_chunk_size - c.overlap_size)
        (pySplitWs text), g ≠ []) ∧
    reconFixed c.overlap_size
      (winds c.target_chunk_size (c.target_chunk_size - c.overlap_size)
        (pySplitWs text)) = pySplitWs text ∧
    (∀ i g₁ g₂, (winds c.target_chunk_size (c.target_chunk_size - c.overlap_size)
        (pySplitWs text))[i]? = some g₁ →
      (winds c.target_chunk_size (c.target_chunk_size - c.overlap_size)
        (pySplitWs text))[i + 1]? = some g₂ →
      g₂.take (min c.overlap_size g₂.length) =
        g₁.drop (g₁.length - min c.overlap_size g₂.length)) ∧
    ((pySplitWs text).length = 600 → c.target_chunk_size = 500 →
      c.overlap_size = 50 →
      winds c.target_chunk_size (c.target_chunk_size - c.overlap_size)
        (pySplitWs text) =
        [(pySplitWs text).take 500, (pySplitWs text).drop 450]) := by
  have hs : 0 < c.target_chunk_size - c.overlap_size := by omega
  have hTs : c.target_chunk_size =
      (c.target_chunk_size - c.overlap_size) + c.overlap_size := by omega
  refine ⟨split_into_chunks_eq_winds c text hO, ?_, ?_, ?_, ?_, ?_⟩
  · intro i g hg
    rw [winds_getElem? _ _ hs _ i] at hg
    by_cases hi : i * (c.target_chunk_size - c.overlap_size) < (pySplitWs text).length
    · rw [if_pos hi] at hg
      exact (Option.some_inj.mp hg).symm
    · rw [if_neg hi] at hg
      exact absurd hg (by simp)
  · exact winds_ne_nil _ _ (by omega) _
  · exact reconFixed_winds _ _ _ hs hTs _ hw
  · intro i g₁ g₂ h₁ h₂
    rw [winds_getElem? _ _ hs _ i] at h₁
    rw [winds_getElem? _ _ hs _ (i + 1)] at h₂
    by_cases hi₂ : (i + 1) * (c.target_chunk_size - c.overlap_size) <
        (pySplitWs text).length
    · have hi₁ : i * (c.target_chunk_size - c.overlap_size) <
          (pySplitWs text).length := by
        have : i * (c.target_chunk_size - c.overlap_size) ≤
            (i + 1) * (c.target_chunk_size - c.overlap_size) :=
          Nat.mul_le_mul_right _ (by omega)
        omega
      rw [if_pos hi₁] at h₁
      rw [if_pos hi₂] at h₂
      obtain rfl := (Option.some_inj.mp h₁).symm
      obtain rfl := (Option.some_inj.mp h₂).symm
      have hmul : (i + 1) * (c.target_chunk_size - c.overlap_size) =
          i * (c.target_chunk_size - c.overlap_size) +
            (c.target_chunk_size - c.overlap_size) := by ring
      rw [hmul]
      exact take_drop_overlap (pySplitWs text) _ _ _ _ hTs (by omega)
    · rw [if_neg hi₂] at h₂
      exact absurd h₂ (by simp)
  · intro hlen hT hOv
    rw [hT, hOv]
    norm_num
    have h1 : pySplitWs text ≠ [] := hw
    rw [winds_cons _ _ _ h1 (by omega)]
    have hd1 : (pySplitWs text).drop 450 ≠ [] := by
      intro hnil
      have := List.length_drop 450 (pySplitWs text)
      rw [hnil] at this
      simp at this
      omega
    rw [winds_cons _ _ _ hd1 (by omega)]
    have hd2 : ((pySplitWs text).drop 450).drop 450 = [] := by
      apply List.drop_eq_nil_of_le
      rw [List.length_drop]
      omega
    rw [hd2, winds_nil]
    have ht2 : ((pySplitWs text).drop 450).take 500 = (pySplitWs text).drop 450 := by
      apply List.take_of_length_le
      rw [List.length_drop]
      omega
    rw [ht2]

/-- Witness for C5: the chunker with target 2 and overlap 1 on the text
"a b c" satisfies the hypotheses, and the split evaluates to the three
overlapping windows joined with spaces. -/
theorem c5_splitFixed_windows_witness :
    (⟨2, 1⟩ : DocumentChunker).overlap_size <
      (⟨2, 1⟩ : DocumentChunker).target_chunk_size ∧
    pySplitWs "a b c" ≠ [] ∧
    split_into_chunks ⟨2, 1⟩ "a b c" =
      .ok ((winds 2 (2 - 1) (pySplitWs "a b c")).map (fun g => pyStrip (pyJoin g))) ∧
    split_into_chunks ⟨2, 1⟩ "a b c" = .ok ["a b", "b c", "c"] := by
  refine ⟨by decide, by decide, ?_, by decide⟩
  exact (c5_splitFixed_windows ⟨2, 1⟩ "a b c" (by decide) (by decide)).1

/-! ## split_by_sentences (chunking.py lines 71-122) -/

/-- The sentence terminators of the regex [.!?]+ (line 84). -/
def isSentTerm (ch : Char) : Bool := ch = '.' ∨ ch = '!' ∨ ch = '?'

/-- Split the characters at every single terminator.  re.split on runs of
terminators differs from this only by extra empty pieces between adjacent
terminators, and line 85 strips and discards blank pieces, so the final
sentence list is identical. -/
def splitSentAux : List Char → List Char → List String
  | [], acc => [⟨acc.reverse⟩]
  | chr :: rest, acc =>
    if isSentTerm chr then (⟨acc.reverse⟩ : String) :: splitSentAux rest []
    else splitSentAux rest (chr :: acc)

/-- chunking.py lines 84-85: split into sentences, strip each, keep the
non-blank ones. -/
def pySentences (text : String) : List String :=
  ((splitSentAux text.data []).map pyStrip).filter (fun s => s ≠ "")

/-- Python len(sentence.split()) as used on lines 95 and 111. -/
def wordCount (s : String) : Nat := (pySplitWs s).length

/-- sum(len(s.split()) for s in group), line 111. -/
def sumWordCount (l : List String) : Nat := (l.map wordCount).sum

/-- The sentence-accumulation loop of lines 94-115, carried at the level of
sentence groups (the source joins each emitted group with spaces at emission
time; collecting the groups and joining at the end is the same list).
State: sentences still to process, emitted groups, current group, running
word count of the current group. -/
def splitLoop (T ovc : Nat) :
    List String → List (List String) → List String → Nat →
      List (List String) × List String
  | [], chunks, current, _ => (chunks, current)
  | sentence :: rest, chunks, current, wc =>
    let swc := wordCount sentence
    if wc + swc > T ∧ current ≠ [] then
      let overlap_sentences := current.drop (current.length - ovc)
      let current' := overlap_sentences ++ [sentence]
      splitLoop T ovc rest (chunks ++ [current]) current' (sumWordCount current')
    else
      splitLoop T ovc rest chunks (current ++ [sentence]) (wc + swc)

/-- The emitted sentence groups of DocumentChunker.split_by_sentences:
the loop's chunks plus the final accumulated group when non-empty
(lines 117-120). -/
def split_by_sentences_groups (c : DocumentChunker) (text : String) :
    List (List String) :=
  let sentences := pySentences text
  if sentences = [] then []
  else
    let overlap_sentence_count := max 1 (c.overlap_size / 20)
    let r := splitLoop c.target_chunk_size overlap_sentence_count sentences [] [] 0
    if r.2 ≠ [] then r.1 ++ [r.2] else r.1

/-- DocumentChunker.split_by_sentences: each emitted group joined with
single spaces. -/
def split_by_sentences (c : DocumentChunker) (text : String) : List String :=
  (split_by_sentences_groups c text).map pyJoin

/-- Reconstruction reference: concatenate the emitted groups, removing from
every group after the first the overlap prefix it inherited from its
predecessor, namely min ovc (length of the predecessor group) sentences. -/
def sentReconAux (ovc : Nat) : List String → List (List String) → List String
  | _, [] => []
  | prev, g :: rest => g.drop (min ovc prev.length) ++ sentReconAux ovc g rest

def sentRecon (ovc : Nat) : List (List String) → List String
  | [] => []
  | g :: rest => g ++ sentReconAux ovc g rest

theorem sentReconAux_snoc (ovc : Nat) (prev : List String)
    (l : List (List String)) (g : List String) :
    sentReconAux ovc prev (l ++ [g]) =
      sentReconAux ovc prev l ++ g.drop (min ovc (l.getLastD prev).length) := by
  induction l generalizing prev with
  | nil => simp [sentReconAux]
  | cons c rest ih =>
    simp only [List.cons_append, sentReconAux, List.getLastD_cons,
      List.append_eq, ih c, List.append_assoc]

theorem sentRecon_snoc (ovc : Nat) (chunks : List (List String))
    (g : List String) (h : chunks ≠ []) :
    sentRecon ovc (chunks ++ [g]) =
      sentRecon ovc chunks ++ g.drop (min ovc (chunks.getLastD []).length) := by
  match chunks with
  | [] => exact absurd rfl h
  | c :: rest =>
    simp only [List.cons_append, sentRecon, sentReconAux_snoc, List.getLastD_cons,
      List.append_assoc]

theorem sumWordCount_snoc (l : List String) (x : String) :
    sumWordCount (l ++ [x]) = sumWordCount l + wordCount x := by
  simp [sumWordCount]

/-- A group of non-blank sentences joins to a non-blank chunk string. -/
theorem pyJoin_ne_empty (g : List String) (hg : g ≠ [])
    (hx : ∀ x ∈ g, x ≠ "") : pyJoin g ≠ "" := by
  match g with
  | [x] => exact hx x (by simp)
  | x :: y :: rest =>
    intro habs
    have hlen := congrArg String.length habs
    rw [show pyJoin (x :: y :: rest) = x ++ " " ++ pyJoin (y :: rest) from rfl,
      String.length_append, String.length_append] at hlen
    have hsp : (" " : String).length = 1 := rfl
    have h0 : ("" : String).length = 0 := rfl
    omega

/-- The loop invariant of splitLoop.  done is the list of sentences already
consumed; the emitted groups plus the pending current group reconstruct it,
the pending group is at least as long as the overlap it would owe to the
last emitted group, emitted groups and the pending group hold only
non-blank sentences, and emitted groups are non-empty. -/
def LoopInv (ovc : Nat) (done : List String) (chunks : List (List String))
    (current : List String) : Prop :=
  (∀ g ∈ chunks, g ≠ [] ∧ ∀ x ∈ g, x ≠ "") ∧
  (∀ x ∈ current, x ≠ "") ∧
  (done ≠ [] → current ≠ []) ∧
  (chunks ≠ [] → min ovc (chunks.getLastD []).length ≤ current.length) ∧
  sentRecon ovc (chunks ++ [current]) = done

theorem splitLoop_spec (T ovc : Nat) :
    ∀ (rest : List String) (chunks : List (List String))
      (current done : List String),
    (∀ s ∈ rest, s ≠ "") →
    LoopInv ovc done chunks current →
    LoopInv ovc (done ++ rest)
      (splitLoop T ovc rest chunks current (sumWordCount current)).1
      (splitLoop T ovc rest chunks current (sumWordCount current)).2 := by
  intro rest
  induction rest with
  | nil =>
    intro chunks current done _ hinv
    simpa [splitLoop] using hinv
  | cons sentence rest ih =>
    intro chunks current done hne hinv
    obtain ⟨hchunks, hcur, hdone, htail, hrecon⟩ := hinv
    have hsent : sentence ≠ "" := hne sentence (by simp)
    have hne' : ∀ s ∈ rest, s ≠ "" := fun s hs => hne s (by simp [hs])
    rw [splitLoop]
    by_cases hcond : sumWordCount current + wordCount sentence > T ∧ current ≠ []
    · rw [if_pos hcond]
      have hcurne : current ≠ [] := hcond.2
      set current' := current.drop (current.length - ovc) ++ [sentence] with hcur'
      have hlendrop : (current.drop (current.length - ovc)).length =
          min ovc current.length := by
        rw [List.length_drop]; omega
      have happly := ih (chunks ++ [current]) current' (done ++ [sentence]) hne' ?_
      · rw [show done ++ sentence :: rest = (done ++ [sentence]) ++ rest by simp]
        exact happly
      · refine ⟨?_, ?_, ?_, ?_, ?_⟩
        · intro g hg
          rcases List.mem_append.mp hg with h | h
          · exact hchunks g h
          · rw [List.mem_singleton] at h
            subst h
            exact ⟨hcurne, hcur⟩
        · intro x hx
          rcases List.mem_append.mp hx with h | h
          · exact hcur x (List.mem_of_mem_drop h)
          · rw [List.mem_singleton] at h
            subst h
            exact hsent
        · intro _
          simp [hcur']
        · intro _
          rw [List.getLastD_concat]
          have : current'.length = min ovc current.length + 1 := by
            rw [hcur', List.length_append, hlendrop]; rfl
          omega
        · rw [sentRecon_snoc ovc (chunks ++ [current]) current' (by simp),
            List.getLastD_concat, hrecon]
          have hdropc : current'.drop (min ovc current.length) = [sentence] := by
            rw [hcur', ← hlendrop, List.drop_left]
          rw [hdropc]
    · rw [if_neg hcond]
      rw [← sumWordCount_snoc]
      have happly := ih chunks (current ++ [sentence]) (done ++ [sentence]) hne' ?_
      · rw [show done ++ sentence :: rest = (done ++ [sentence]) ++ rest by simp]
        exact happly
      · refine ⟨hchunks, ?_, ?_, ?_, ?_⟩
        · intro x hx
          rcases List.mem_append.mp hx with h | h
          · exact hcur x h
          · rw [List.mem_singleton] at h
            subst h
            exact hsent
        · intro _
          simp
        · intro hc
          have := htail hc
          rw [List.length_append]
          omega
        · by_cases hc : chunks = []
          · subst hc
            simp only [List.nil_append, sentRecon, sentReconAux,
              List.append_nil] at hrecon ⊢
            rw [hrecon]
          · have hk := htail hc
            rw [sentRecon_snoc ovc chunks _ hc,
              List.drop_append_of_le_length hk, ← List.append_assoc,
              ← sentRecon_snoc ovc chunks current hc, hrecon]

/-- Claim C6: split_by_sentences splits on runs of sentence terminators,
greedily packs sentences, carries forward the last max 1 (overlap/20)
sentences at each emission, and always emits the final non-empty group;
no emitted chunk is blank, and concatenating the emitted groups with each
later group's inherited overlap prefix removed recovers the original
sentence sequence in order. -/
theorem c6_splitBySentence (c : DocumentChunker) (text : String) :
    split_by_sentences c text = (split_by_sentences_groups c text).map pyJoin ∧
    (∀ chunk ∈ split_by_sentences c text, chunk ≠ "") ∧
    sentRecon (max 1 (c.overlap_size / 20)) (split_by_sentences_groups c text) =
      pySentences text := by
  by_cases hS : pySentences text = []
  · refine ⟨rfl, ?_, ?_⟩
    · intro chunk hchunk
      rw [split_by_sentences, split_by_sentences_groups] at hchunk
      simp only [if_pos hS] at hchunk
      simp at hchunk
    · rw [split_by_sentences_groups]
      simp only [if_pos hS]
      rw [hS]
      rfl
  · have hne : ∀ s ∈ pySentences text, s ≠ "" := by
      intro s hs
      have := List.of_mem_filter hs
      simpa using this
    have hinv0 : LoopInv (max 1 (c.overlap_size / 20)) [] [] [] := by
      exact ⟨by simp, by simp, by simp, by simp, rfl⟩
    have hspec := splitLoop_spec c.target_chunk_size (max 1 (c.overlap_size / 20))
      (pySentences text) [] [] [] hne hinv0
    rw [show sumWordCount [] = 0 from rfl] at hspec
    rw [List.nil_append] at hspec
    obtain ⟨hchunks, hcur, hdone, htail, hrecon⟩ := hspec
    have hr2 : (splitLoop c.target_chunk_size (max 1 (c.overlap_size / 20))
        (pySentences text) [] [] 0).2 ≠ [] := hdone hS
    have hgroups : split_by_sentences_groups c text =
        (splitLoop c.target_chunk_size (max 1 (c.overlap_size / 20))
          (pySentences text) [] [] 0).1 ++
        [(splitLoop c.target_chunk_size (max 1 (c.overlap_size / 20))
          (pySentences text) [] [] 0).2] := by
      rw [split_by_sentences_groups]
      simp only [if_neg hS, if_pos hr2]
    refine ⟨rfl, ?_, ?_⟩
    · intro chunk hchunk
      rw [split_by_sentences, hgroups] at hchunk
      rw [List.mem_map] at hchunk
      obtain ⟨g, hg, rfl⟩ := hchunk
      rcases List.mem_append.mp hg with h | h
      · exact pyJoin_ne_empty g (hchunks g h).1 (hchunks g h).2
      · rw [List.mem_singleton] at h
        subst h
        exact pyJoin_ne_empty _ hr2 hcur
    · rw [hgroups]
      exact hrecon

/-! ## DocumentRetriever (app/embeddings.py)

The sentence-transformers encoder and faiss.normalize_L2 are the injected
external capabilities the spec names; they enter as function parameters
encodeOne (the per-text embedding; encode maps it over a batch) and normL2.
Scores and vector components are rationals.  The faiss index itself is
modelled by the bookkeeping the Python code observes: a fixed dimension
set at construction, an ordered vector list grown by add, and the binding's
assertion that an added batch matches the dimension, raised before any
mutation. -/

/-- A Python dict of string keys and values, as an association list. -/
abbrev PyDict := List (String × String)

structure FaissIndexFlatIP where
  d : Nat
  vectors : List (List ℚ)
deriving DecidableEq, Repr

/-- faiss Index.add: the Python binding asserts the batch dimension equals
the index dimension and raises (returning none here) without mutating
anything otherwise. -/
def FaissIndexFlatIP.add (ix : FaissIndexFlatIP) (xs : List (List ℚ)) :
    Option FaissIndexFlatIP :=
  if ∀ v ∈ xs, v.length = ix.d then some ⟨ix.d, ix.vectors ++ xs⟩ else none

/-- The mutable attributes of DocumentRetriever (embeddings.py lines 24-35):
the faiss index (None until built) and the two parallel stores. -/
structure RetrieverState where
  vector_index : Option FaissIndexFlatIP
  stored_chunks : List String
  chunk_metadata : List PyDict
deriving DecidableEq, Repr

inductive RetrieverErr where
  | faissDimensionMismatch
  | emptyBatchShape
deriving DecidableEq, Repr

/-- DocumentRetriever.build_initial_index (embeddings.py lines 46-67).
Overwrites the stores (lines 53-54), embeds the documents, reads the
dimension from the raw embedding batch (line 61, an error on an empty
batch, whose shape has no second axis), creates a fresh index, normalizes,
and adds.  The error component records a raised exception; the state
component is the object state at that point (lines 53-54 and 62 have
already assigned). -/
def build_initial_index (encodeOne : String → List ℚ) (normL2 : List ℚ → List ℚ)
    (st : RetrieverState) (initial_documents : List String) :
    RetrieverState × Option RetrieverErr :=
  let st₁ : RetrieverState :=
    { st with stored_chunks := initial_documents,
              chunk_metadata := initial_documents.map
                (fun doc => [("text", doc), ("source", "system")]) }
  match initial_documents.map encodeOne with
  | [] => (st₁, some .emptyBatchShape)
  | e0 :: erest =>
    let embedding_dimension := e0.length
    let ix : FaissIndexFlatIP := ⟨embedding_dimension, []⟩
    let st₂ := { st₁ with vector_index := some ix }
    match ix.add ((e0 :: erest).map normL2) with
    | some ix' => ({ st₂ with vector_index := some ix' }, none)
    | none => (st₂, some .faissDimensionMismatch)

/-- DocumentRetriever.add_document_chunks (embeddings.py lines 69-99).
Empty chunk lists return immediately (lines 76-77).  Embedding and
normalization (lines 80-81), lazy index construction that resets both
stores (lines 84-88), faiss add (line 91, can raise), then the store and
metadata extensions (lines 92-99).  There is no check at all that a
provided metadata list matches the chunk list in length. -/
def add_document_chunks (encodeOne : String → List ℚ) (normL2 : List ℚ → List ℚ)
    (st : RetrieverState) (new_chunks : List String)
    (metadata : Option (List PyDict)) : RetrieverState × Option RetrieverErr :=
  if new_chunks = [] then (st, none)
  else
    let new_embeddings := (new_chunks.map encodeOne).map normL2
    let p : FaissIndexFlatIP × RetrieverState :=
      match st.vector_index with
      | none =>
        (⟨(new_embeddings.headD []).length, []⟩,
         { vector_index := some ⟨(new_embeddings.headD []).length, []⟩,
           stored_chunks := [], chunk_metadata := [] })
      | some ix => (ix, st)
    match p.1.add new_embeddings with
    | none => (p.2, some .faissDimensionMismatch)
    | some ix' =>
      let st₂ := { p.2 with vector_index := some ix',
                            stored_chunks := p.2.stored_chunks ++ new_chunks }
      match metadata with
      | some md => ({ st₂ with chunk_metadata := st₂.chunk_metadata ++ md }, none)
      | none =>
        ({ st₂ with chunk_metadata := st₂.chunk_metadata ++
            new_chunks.map (fun chunk => [("text", chunk), ("source", "uploaded")]) },
         none)

/-- DocumentRetriever.find_relevant_chunks (embeddings.py lines 101-146).
The question embedding, its normalization, and the faiss search (lines
128-135) are the injected capabilities; their outcome enters as the
similarity_scores and chunk_indices the search returned.  The method only
reads the object, so the state component of the result is the input state.
The chunk list is the comprehension of line 140-143: keep indices strictly
below the store length (Python compares signed ints, so the faiss padding
index -1 passes and indexes from the end), look each up with Python
indexing; the score list (line 144) is returned whole, unfiltered.  A none
result models an IndexError from an index below -len. -/
def find_relevant_chunks (st : RetrieverState) (similarity_scores : List ℚ)
    (chunk_indices : List Int) :
    RetrieverState × Option (List String × List ℚ) :=
  if st.vector_index.isNone ∨ st.stored_chunks = [] then (st, some ([], []))
  else
    match (chunk_indices.filter
        (fun idx => idx < (st.stored_chunks.length : Int))).mapM
        (pyGetItem st.stored_chunks) with
    | some retrieved_chunks => (st, some (retrieved_chunks, similarity_scores))
    | none => (st, none)

/-- Claim C9: searching with an uninitialized index or an empty chunk store
returns empty chunks and empty scores (and the state untouched), never an
error. -/
theorem c9_empty_search_returns_empty (st : RetrieverState) (scores : List ℚ)
    (idxs : List Int) (h : st.vector_index = none ∨ st.stored_chunks = []) :
    find_relevant_chunks st scores idxs = (st, some ([], [])) := by
  rw [find_relevant_chunks, if_pos]
  rcases h with h | h
  · exact Or.inl (by rw [h]; rfl)
  · exact Or.inr h

/-- Witness for C9: a fresh retriever state with no index and empty stores,
searched with junk scores and indices. -/
theorem c9_empty_search_returns_empty_witness :
    ((⟨none, [], []⟩ : RetrieverState).vector_index = none ∨
      (⟨none, [], []⟩ : RetrieverState).stored_chunks = []) ∧
    find_relevant_chunks ⟨none, [], []⟩ [7/2] [5] = (⟨none, [], []⟩, some ([], [])) :=
  ⟨Or.inl rfl, c9_empty_search_returns_empty ⟨none, [], []⟩ [7/2] [5] (Or.inl rfl)⟩

/-- Counterexample to claim C1: a retriever holding one chunk, searched
with k = 2.  faiss pads the missing second record with sentinel index -1
and a sentinel score.  The comprehension's guard idx < len(store) does not
drop -1 (Python resolves it to the last stored chunk), and the score list
is returned whole, so the result is two chunks for one real record instead
of the claim's one, and the sentinel entry survives into the output. -/
theorem c1_counterexample :
    (find_relevant_chunks
      ⟨some ⟨2, [[1, 0]]⟩, ["a"], [[("text", "a"), ("source", "system")]]⟩
      [9/10, -(34028 * 10 ^ 34)] [0, -1]).2 =
      some (["a", "a"], [9/10, -(34028 * 10 ^ 34)]) ∧
    ¬ (["a", "a"] : List String).length = 1 :=
  ⟨rfl, by decide⟩

/-- Python lookup of a run of valid indices succeeds and is positionally
the store lookup of each index. -/
theorem mapM_pyGetItem_valid (l : List String) :
    ∀ idxs : List Int, (∀ i ∈ idxs, 0 ≤ i ∧ i < (l.length : Int)) →
    ∃ chunks, idxs.mapM (pyGetItem l) = some chunks ∧
      chunks.length = idxs.length ∧
      ∀ (j : Nat) (i : Int), idxs[j]? = some i → chunks[j]? = l[i.toNat]? := by
  intro idxs
  induction idxs with
  | nil =>
    intro _
    exact ⟨[], rfl, rfl, by intro j i hj; simp at hj⟩
  | cons i rest ih =>
    intro hvalid
    obtain ⟨hi0, hilt⟩ := hvalid i (by simp)
    obtain ⟨chunks, hchunks, hlen, hpos⟩ :=
      ih (fun x hx => hvalid x (by simp [hx]))
    have hlt : i.toNat < l.length := by omega
    have hgetel : l[i.toNat]? = some (l.get ⟨i.toNat, hlt⟩) :=
      List.getElem?_eq_getElem hlt
    have hget : pyGetItem l i = some (l.get ⟨i.toNat, hlt⟩) := by
      rw [pyGetItem, if_pos hi0]
      exact hgetel
    refine ⟨l.get ⟨i.toNat, hlt⟩ :: chunks, ?_, by simp [hlen], ?_⟩
    · rw [List.mapM_cons, hget, hchunks]
      rfl
    · intro j x hj
      match j with
      | 0 =>
        simp only [List.getElem?_cons_zero, Option.some_inj] at hj
        subst hj
        simp only [List.getElem?_cons_zero]
        exact hgetel.symm
      | j + 1 =>
        simp only [List.getElem?_cons_succ] at hj ⊢
        exact hpos j x hj

/-- Claim C1 as amended: the score list is returned whole (length k,
unfiltered), the chunk list keeps exactly the indices below the store
length (faiss sentinel -1 included, resolved from the end of the store);
when every returned index refers to a store entry and the scores are in
descending order, the chunk and score lists are parallel, equally long,
and descending, with the j-th chunk the store entry of the j-th index. -/
theorem c1_zip_parallel_when_valid (st : RetrieverState) (ix : FaissIndexFlatIP)
    (scores : List ℚ) (idxs : List Int)
    (hix : st.vector_index = some ix) (hne : st.stored_chunks ≠ [])
    (hvalid : ∀ i ∈ idxs, 0 ≤ i ∧ i < (st.stored_chunks.length : Int))
    (hsorted : scores.Sorted (fun a b => b ≤ a))
    (hklen : scores.length = idxs.length) :
    ∃ chunks, (find_relevant_chunks st scores idxs).2 = some (chunks, scores) ∧
      chunks.length = scores.length ∧
      scores.Sorted (fun a b => b ≤ a) ∧
      ∀ (j : Nat) (i : Int), idxs[j]? = some i →
        chunks[j]? = st.stored_chunks[i.toNat]? := by
  have hguard : ¬(st.vector_index.isNone ∨ st.stored_chunks = []) := by
    rw [hix]
    simp [hne]
  obtain ⟨chunks, hmapM, hlen, hpos⟩ :=
    mapM_pyGetItem_valid st.stored_chunks idxs hvalid
  have hfilter :
      idxs.filter (fun idx => idx < (st.stored_chunks.length : Int)) = idxs := by
    apply List.filter_eq_self.mpr
    intro a ha
    simpa using (hvalid a ha).2
  refine ⟨chunks, ?_, by omega, hsorted, hpos⟩
  rw [find_relevant_chunks, if_neg hguard, hfilter, hmapM]

/-- Witness for the amended C1: two stored chunks, both indices returned in
descending-score order; the result pairs chunk j with score j. -/
theorem c1_zip_parallel_when_valid_witness :
    ((⟨some ⟨2, [[1, 0], [0, 1]]⟩, ["a", "b"],
        [[("text", "a"), ("source", "system")],
         [("text", "b"), ("source", "system")]]⟩ : RetrieverState).stored_chunks ≠ []) ∧
    (∀ i ∈ ([0, 1] : List Int), 0 ≤ i ∧
      i < (((⟨some ⟨2, [[1, 0], [0, 1]]⟩, ["a", "b"],
        [[("text", "a"), ("source", "system")],
         [("text", "b"), ("source", "system")]]⟩ : RetrieverState)).stored_chunks.length : Int)) ∧
    ([9/10, 1/2] : List ℚ).Sorted (fun a b => b ≤ a) ∧
    (∃ chunks, (find_relevant_chunks
        ⟨some ⟨2, [[1, 0], [0, 1]]⟩, ["a", "b"],
          [[("text", "a"), ("source", "system")],
           [("text", "b"), ("source", "system")]]⟩ [9/10, 1/2] [0, 1]).2 =
        some (chunks, [9/10, 1/2]) ∧
      chunks.length = ([9/10, 1/2] : List ℚ).length ∧
      ([9/10, 1/2] : List ℚ).Sorted (fun a b => b ≤ a) ∧
      ∀ (j : Nat) (i : Int), ([0, 1] : List Int)[j]? = some i →
        chunks[j]? = (["a", "b"] : List String)[i.toNat]?) := by
  refine ⟨by decide, by decide, by norm_num [List.sorted_cons], ?_⟩
  exact c1_zip_parallel_when_valid _ ⟨2, [[1, 0], [0, 1]]⟩ [9/10, 1/2] [0, 1]
    rfl (by decide) (by decide) (by norm_num [List.sorted_cons]) (by decide)

/-- Claim C7: adding a batch whose embedded vectors have a dimensionality
different from the index's established one fails with the faiss dimension
assertion, and the returned state is exactly the state before the call:
the assertion is raised before the store or metadata extensions run. -/
theorem c7_dimension_mismatch_rejected (encodeOne : String → List ℚ)
    (normL2 : List ℚ → List ℚ) (st : RetrieverState) (ix : FaissIndexFlatIP)
    (new_chunks : List String) (metadata : Option (List PyDict))
    (hix : st.vector_index = some ix) (hne : new_chunks ≠ [])
    (hbad : ∃ v ∈ (new_chunks.map encodeOne).map normL2, v.length ≠ ix.d) :
    add_document_chunks encodeOne normL2 st new_chunks metadata =
      (st, some .faissDimensionMismatch) := by
  have hadd : FaissIndexFlatIP.add ix ((new_chunks.map encodeOne).map normL2) =
      none := by
    rw [FaissIndexFlatIP.add, if_neg]
    intro hall
    obtain ⟨v, hv, hvne⟩ := hbad
    exact hvne (hall v hv)
  obtain ⟨vi, sc, cm⟩ := st
  have hvi : vi = some ix := hix
  subst hvi
  simp only [add_document_chunks, if_neg hne, hadd]

/-- Witness for C7: an index of dimension 2 holding one vector, an encoder
producing 3-dimensional vectors; the add fails and returns the state it was
given. -/
theorem c7_dimension_mismatch_rejected_witness :
    ((⟨some ⟨2, [[1, 0]]⟩, ["a"], [[("text", "a"), ("source", "system")]]⟩ :
        RetrieverState).vector_index = some ⟨2, [[1, 0]]⟩) ∧
    (["b"] : List String) ≠ [] ∧
    (∃ v ∈ ((["b"].map (fun _ => ([1, 2, 3] : List ℚ))).map (fun v => v)),
      v.length ≠ (⟨2, [[1, 0]]⟩ : FaissIndexFlatIP).d) ∧
    add_document_chunks (fun _ => ([1, 2, 3] : List ℚ)) (fun v => v)
      ⟨some ⟨2, [[1, 0]]⟩, ["a"], [[("text", "a"), ("source", "system")]]⟩
      ["b"] none =
      (⟨some ⟨2, [[1, 0]]⟩, ["a"], [[("text", "a"), ("source", "system")]]⟩,
       some .faissDimensionMismatch) := by
  refine ⟨rfl, by decide, by decide, ?_⟩
  exact c7_dimension_mismatch_rejected (fun _ => ([1, 2, 3] : List ℚ)) (fun v => v)
    _ ⟨2, [[1, 0]]⟩ ["b"] none rfl (by decide) (by decide)

/-- Claim C3: the code performs no length check between a provided metadata
list and the chunk list.  Adding two chunks with a one-element metadata
list raises no error and silently extends the metadata store, leaving
three stored chunks against two metadata rows. -/
theorem c3_metadata_mismatch_not_rejected :
    add_document_chunks (fun _ => ([0, 1] : List ℚ)) (fun v => v)
      ⟨some ⟨2, [[1, 0]]⟩, ["a"], [[("text", "a"), ("source", "system")]]⟩
      ["b", "c"] (some [[("text", "b"), ("source", "uploaded")]]) =
      (⟨some ⟨2, [[1, 0], [0, 1], [0, 1]]⟩, ["a", "b", "c"],
        [[("text", "a"), ("source", "system")],
         [("text", "b"), ("source", "uploaded")]]⟩, none) ∧
    (["a", "b", "c"] : List String).length ≠
      ([[("text", "a"), ("source", "system")],
        [("text", "b"), ("source", "uploaded")]] : List PyDict).length :=
  ⟨rfl, by decide⟩

/-- The parallel-store invariant of the retriever: the index exists, its
dimension is the model's D, its N-th vector is the normalized embedding of
the N-th stored chunk, and index, chunk store and metadata store have equal
lengths. -/
def RetrieverInv (encodeOne : String → List ℚ) (normL2 : List ℚ → List ℚ)
    (D : Nat) (st : RetrieverState) : Prop :=
  ∃ ix, st.vector_index = some ix ∧ ix.d = D ∧
    ix.vectors = st.stored_chunks.map (fun chunk => normL2 (encodeOne chunk)) ∧
    ix.vectors.length = st.stored_chunks.length ∧
    st.chunk_metadata.length = st.stored_chunks.length

/-- Claim C8: build_initial_index on a non-empty document list establishes
the parallel-store invariant without error; add_document_chunks (with
matching metadata when provided) preserves it without error; and
find_relevant_chunks never mutates the state. -/
theorem c8_parallel_store_invariant (encodeOne : String → List ℚ)
    (normL2 : List ℚ → List ℚ) (D : Nat)
    (hEnc : ∀ t, (encodeOne t).length = D)
    (hNorm : ∀ v, (normL2 v).length = v.length) :
    (∀ st docs, docs ≠ [] →
      (build_initial_index encodeOne normL2 st docs).2 = none ∧
      RetrieverInv encodeOne normL2 D
        (build_initial_index encodeOne normL2 st docs).1) ∧
    (∀ st chunks md, RetrieverInv encodeOne normL2 D st →
      (md = none ∨ ∃ l, md = some l ∧ l.length = chunks.length) →
      (add_document_chunks encodeOne normL2 st chunks md).2 = none ∧
      RetrieverInv encodeOne normL2 D
        (add_document_chunks encodeOne normL2 st chunks md).1) ∧
    (∀ st scores idxs, (find_relevant_chunks st scores idxs).1 = st) := by
  refine ⟨?_, ?_, ?_⟩
  · -- build_initial_index
    intro st docs hdocs
    obtain ⟨d0, drest, rfl⟩ := List.exists_cons_of_ne_nil hdocs
    have hadd : FaissIndexFlatIP.add ⟨(encodeOne d0).length, []⟩
        (normL2 (encodeOne d0) :: (drest.map encodeOne).map normL2) =
        some ⟨(encodeOne d0).length,
          normL2 (encodeOne d0) :: (drest.map encodeOne).map normL2⟩ := by
      rw [FaissIndexFlatIP.add, if_pos]
      · simp
      · intro v hv
        rcases List.mem_cons.mp hv with h | h
        · subst h
          rw [hNorm]
        · obtain ⟨e, he, rfl⟩ := List.mem_map.mp h
          obtain ⟨t, _, rfl⟩ := List.mem_map.mp he
          rw [hNorm, hEnc, hEnc]
    simp only [build_initial_index, List.map_cons, hadd]
    refine ⟨trivial, ⟨(⟨(encodeOne d0).length,
      normL2 (encodeOne d0) :: (drest.map encodeOne).map normL2⟩ : FaissIndexFlatIP),
      rfl, hEnc d0, ?_, ?_, ?_⟩⟩
    · simp [List.map_map]
    · simp
    · simp
  · -- add_document_chunks
    intro st chunks md hinv hmd
    by_cases hc : chunks = []
    · subst hc
      rw [add_document_chunks]
      simp only [if_pos rfl]
      exact ⟨rfl, hinv⟩
    · obtain ⟨ix, hix, hd, hvec, hvlen, hmlen⟩ := hinv
      obtain ⟨vi, sc, cm⟩ := st
      have hvi : vi = some ix := hix
      subst hvi
      have hadd : FaissIndexFlatIP.add ix ((chunks.map encodeOne).map normL2) =
          some ⟨ix.d, ix.vectors ++ (chunks.map encodeOne).map normL2⟩ := by
        rw [FaissIndexFlatIP.add, if_pos]
        intro v hv
        obtain ⟨e, he, rfl⟩ := List.mem_map.mp hv
        obtain ⟨t, _, rfl⟩ := List.mem_map.mp he
        rw [hNorm, hEnc, hd]
      simp only [add_document_chunks, if_neg hc, hadd]
      simp only [RetrieverState.stored_chunks, RetrieverState.chunk_metadata,
        RetrieverState.vector_index] at hvec hvlen hmlen ⊢
      rcases hmd with hmd | ⟨l, hmd, hlen⟩
      · subst hmd
        refine ⟨rfl, ⟨⟨ix.d, ix.vectors ++ (chunks.map encodeOne).map normL2⟩,
          rfl, hd, ?_, ?_, ?_⟩⟩
        · simp [hvec, List.map_map]
        · simp [hvec]
        · simp
          omega
      · subst hmd
        refine ⟨rfl, ⟨⟨ix.d, ix.vectors ++ (chunks.map encodeOne).map normL2⟩,
          rfl, hd, ?_, ?_, ?_⟩⟩
        · simp [hvec, List.map_map]
        · simp [hvec]
        · simp
          omega
  · -- find_relevant_chunks reads only
    intro st scores idxs
    unfold find_relevant_chunks
    split
    · rfl
    · split <;> rfl

/-- Witness for C8: a two-dimensional constant encoder, identity
normalization, and a build over two documents; the build succeeds and the
invariant holds for the resulting state. -/
theorem c8_parallel_store_invariant_witness :
    (∀ t : String, ((fun _ => ([1, 0] : List ℚ)) t).length = 2) ∧
    (∀ v : List ℚ, ((fun w => w) v).length = v.length) ∧
    (["x", "y"] : List String) ≠ [] ∧
    (build_initial_index (fun _ => ([1, 0] : List ℚ)) (fun w => w)
      ⟨none, [], []⟩ ["x", "y"]).2 = none ∧
    RetrieverInv (fun _ => ([1, 0] : List ℚ)) (fun w => w) 2
      (build_initial_index (fun _ => ([1, 0] : List ℚ)) (fun w => w)
        ⟨none, [], []⟩ ["x", "y"]).1 := by
  have h := (c8_parallel_store_invariant (fun _ => ([1, 0] : List ℚ)) (fun w => w) 2
    (fun _ => rfl) (fun _ => rfl)).1 ⟨none, [], []⟩ ["x", "y"] (by decide)
  exact ⟨fun _ => rfl, fun _ => rfl, by decide, h.1, h.2⟩

/-! ## Routes (app/routes.py): the query endpoint and the metrics
aggregation -/

/-- One row of the query_logs table (database.py lines 15-22); the
cosine_similarity column is nullable. -/
structure QueryLogRecord where
  query_text : String
  response_text : String
  cosine_similarity : Option ℚ
deriving DecidableEq, Repr

/-- The response model of POST /query (routes.py lines 16-19). -/
structure QueryResponse where
  answer : String
  similarity_score : ℚ
  sources : List String
deriving DecidableEq, Repr

/-- np.mean of a non-empty list. -/
def listMean (l : List ℚ) : ℚ := l.sum / l.length

/-- ask_question (routes.py lines 35-63), given the retrieval outcome
(chunks, scores as returned by find_relevant_chunks with k = 3) and the
generated answer string (the llm call is the external generation
boundary).  Returns the HTTP response and the list of records committed to
the database: one QueryLog row per completed query.  Line 48 sets the
average to 0.0, a number, when the score list is empty. -/
def ask_question (question llm_response : String)
    (retrieved_chunks : List String) (similarity_scores : List ℚ) :
    QueryResponse × List QueryLogRecord :=
  let avg_similarity : ℚ :=
    if similarity_scores ≠ [] then listMean similarity_scores else 0
  (⟨llm_response, avg_similarity, retrieved_chunks⟩,
   [⟨question, llm_response, some avg_similarity⟩])

/-- Counterexample to claim C4: a query answered before any chunk existed
(empty score list) is logged with similarity 0.0, a computed number, not
null. -/
theorem c4_counterexample :
    (ask_question "q" "ans" [] []).2 = [⟨"q", "ans", some 0⟩] ∧
    some (0 : ℚ) ≠ (none : Option ℚ) :=
  ⟨rfl, by decide⟩

/-- Claim C4 as amended: every completed query emits exactly one record
with the question, the answer, and the arithmetic mean of the returned
scores; when no scores were returned the recorded similarity is the number
0, not null. -/
theorem c4_one_record_with_mean (question llm_response : String)
    (retrieved_chunks : List String) (similarity_scores : List ℚ) :
    (ask_question question llm_response retrieved_chunks similarity_scores).2 =
      [⟨question, llm_response,
        some (if similarity_scores = [] then 0
              else listMean similarity_scores)⟩] := by
  rw [ask_question]
  by_cases h : similarity_scores = [] <;> simp [h]

/-- The result of GET /metrics (routes.py lines 82-121): either one of the
two insufficient-data messages, or the statistics record.  np.std is the
square root of the population variance; the record carries the exact
rational variance and the standard deviation is Real.sqrt of it. -/
inductive MetricsResult where
  | noQueries (message : String)
  | noScores (message : String)
  | stats (total_queries : Nat) (avg_similarity min_similarity : ℚ)
      (max_similarity : ℚ) (similarity_variance : ℚ) (performance_hint : String)
deriving DecidableEq, Repr

/-- np population variance: mean of the squared deviations from the mean. -/
def listVariance (l : List ℚ) : ℚ :=
  listMean (l.map (fun x => (x - listMean l) ^ 2))

/-- get_system_metrics (routes.py lines 82-121).  Empty log table: a
message.  All similarities null: a message.  Otherwise the count of all logs,
and mean, min, max, variance of the non-null similarities, with the hint
string chosen by mean > 0.5. -/
def get_system_metrics (query_logs : List QueryLogRecord) : MetricsResult :=
  if query_logs = [] then
    .noQueries "No queries logged yet - upload some documents and ask questions!"
  else
    match query_logs.filterMap (fun log => log.cosine_similarity) with
    | [] => .noScores "No similarity scores available yet"
    | s :: rest =>
      .stats query_logs.length (listMean (s :: rest)) (rest.foldl min s)
        (rest.foldl max s) (listVariance (s :: rest))
        (if listMean (s :: rest) > 1/2 then "Good performance"
         else "Consider adding more relevant documents")

/-- Claim C10: the metrics aggregation returns an explicit message (never
an exception or a silent zero) for an empty history or an all-null history;
otherwise it returns the total query count and the mean, min, max, and
population variance of the non-null similarities, with the health hint
"Good performance" exactly when the mean exceeds 1/2; the history
[0.8, 0.6, 0.9, 0.3] yields mean 13/20, min 3/10, max 9/10, hint good, and
a population standard deviation (the square root of the variance 21/400)
within 1/1000 of 0.229. -/
theorem c10_metrics_aggregation :
    get_system_metrics [] =
      .noQueries "No queries logged yet - upload some documents and ask questions!" ∧
    (∀ logs : List QueryLogRecord, logs ≠ [] →
      logs.filterMap (fun log => log.cosine_similarity) = [] →
      get_system_metrics logs = .noScores "No similarity scores available yet") ∧
    (∀ (logs : List QueryLogRecord) (s : ℚ) (rest : List ℚ),
      logs.filterMap (fun log => log.cosine_similarity) = s :: rest →
      get_system_metrics logs =
        .stats logs.length (listMean (s :: rest)) (rest.foldl min s)
          (rest.foldl max s) (listVariance (s :: rest))
          (if listMean (s :: rest) > 1/2 then "Good performance"
           else "Consider adding more relevant documents")) ∧
    (∀ m : ℚ,
      ((if m > 1/2 then "Good performance"
        else "Consider adding more relevant documents") = "Good performance") ↔
      m > 1/2) ∧
    (get_system_metrics
        [⟨"q1", "a1", some (8/10)⟩, ⟨"q2", "a2", some (6/10)⟩,
         ⟨"q3", "a3", some (9/10)⟩, ⟨"q4", "a4", some (3/10)⟩] =
      .stats 4 (13/20) (3/10) (9/10) (21/400) "Good performance" ∧
      |Real.sqrt (21/400) - 229/1000| < 1/1000) := by
  refine ⟨rfl, ?_, ?_, ?_, ?_⟩
  · intro logs hne hfm
    simp only [get_system_metrics, if_neg hne, hfm]
  · intro logs s rest h
    have hne : logs ≠ [] := by
      intro he
      subst he
      simp at h
    simp only [get_system_metrics, if_neg hne, h]
  · intro m
    by_cases hm : m > 1/2
    · rw [if_pos hm]
      exact iff_of_true rfl hm
    · rw [if_neg hm]
      exact iff_of_false (by decide) hm
  · have hne4 : ([⟨"q1", "a1", some (8/10)⟩, ⟨"q2", "a2", some (6/10)⟩,
        ⟨"q3", "a3", some (9/10)⟩, ⟨"q4", "a4", some (3/10)⟩] :
        List QueryLogRecord) ≠ [] := by simp
    have hfm : ([⟨"q1", "a1", some (8/10)⟩, ⟨"q2", "a2", some (6/10)⟩,
        ⟨"q3", "a3", some (9/10)⟩, ⟨"q4", "a4", some (3/10)⟩] :
        List QueryLogRecord).filterMap (fun log => log.cosine_similarity) =
        [8/10, 6/10, 9/10, 3/10] := rfl
    have hmean : listMean [8/10, 6/10, 9/10, 3/10] = 13/20 := by
      norm_num [listMean]
    have hvar : listVariance [8/10, 6/10, 9/10, 3/10] = 21/400 := by
      norm_num [listVariance, listMean]
    have hmin : ([6/10, 9/10, 3/10] : List ℚ).foldl min (8/10) = 3/10 := by
      norm_num [List.foldl, min_def]
    have hmax : ([6/10, 9/10, 3/10] : List ℚ).foldl max (8/10) = 9/10 := by
      norm_num [List.foldl, max_def]
    refine ⟨?_, ?_⟩
    · simp only [get_system_metrics, if_neg hne4, hfm, hmean, hvar, hmin, hmax]
      norm_num
    · rw [abs_lt]
      have h1 : (228/1000 : ℝ) < Real.sqrt (21/400) := by
        rw [show (228/1000 : ℝ) = Real.sqrt ((228/1000) ^ 2) from
          (Real.sqrt_sq (by norm_num)).symm]
        apply Real.sqrt_lt_sqrt (by positivity)
        norm_num
      have h2 : Real.sqrt (21/400) < (230/1000 : ℝ) := by
        rw [show (230/1000 : ℝ) = Real.sqrt ((230/1000) ^ 2) from
          (Real.sqrt_sq (by norm_num)).symm]
        apply Real.sqrt_lt_sqrt (by positivity)
        norm_num
      constructor
      · linarith
      · linarith

/-- Witness for C10: the stats branch applied to the concrete four-query
history of the example. -/
theorem c10_metrics_aggregation_witness :
    (([⟨"q1", "a1", some (8/10)⟩, ⟨"q2", "a2", some (6/10)⟩,
       ⟨"q3", "a3", some (9/10)⟩, ⟨"q4", "a4", some (3/10)⟩] :
       List QueryLogRecord).filterMap (fun log => log.cosine_similarity) =
      (8/10 : ℚ) :: [6/10, 9/10, 3/10]) ∧
    get_system_metrics
        [⟨"q1", "a1", some (8/10)⟩, ⟨"q2", "a2", some (6/10)⟩,
         ⟨"q3", "a3", some (9/10)⟩, ⟨"q4", "a4", some (3/10)⟩] =
      .stats 4 (listMean ((8/10 : ℚ) :: [6/10, 9/10, 3/10]))
        (([6/10, 9/10, 3/10] : List ℚ).foldl min (8/10))
        (([6/10, 9/10, 3/10] : List ℚ).foldl max (8/10))
        (listVariance ((8/10 : ℚ) :: [6/10, 9/10, 3/10]))
        (if listMean ((8/10 : ℚ) :: [6/10, 9/10, 3/10]) > 1/2
         then "Good performance"
         else "Consider adding more relevant documents") := by
  refine ⟨rfl, ?_⟩
  exact c10_metrics_aggregation.2.2.1 _ (8/10) [6/10, 9/10, 3/10] rfl

end RagChatbot
